import Mathlib

/-!
Verification of the icon renderer `create_icon_with_padding` from
`doc/generate_icons.py` (repository cavaldos/MonkeyNote).

The script's single non-trivial routine takes a source image, a target
`size`, a `padding_percent` and a `corner_radius_percent`, and produces a
`size × size` RGBA canvas holding the source resized to
`inner_size = int(size * (1 - padding_percent / 100))`, optionally
corner-rounded, centered at offset `(size - inner_size) // 2`.

The embedding below models images as pixel maps with explicit dimensions.
Pillow primitives used by the script (`resize`, `ImageDraw.rounded_rectangle`,
`ImageChops.multiply`, `putalpha`, `Image.new`, `paste` with a mask) are
modelled from their documented/implemented semantics; the Lanczos
resampling kernel is abstracted as a parameter, since every property of
interest is independent of the concrete filter coefficients.
Exact rational arithmetic stands in for Python floats.
-/

/-- An 8-bit-per-channel RGBA pixel value; each channel ranges over 0..255. -/
structure RGBA where
  r : ℕ
  g : ℕ
  b : ℕ
  a : ℕ
deriving DecidableEq, Repr

/-- An in-memory PIL-style image: pixel dimensions, a mode string, and a
total pixel map (only coordinates with `x < width`, `y < height` are
meaningful). -/
structure Img where
  width : ℕ
  height : ℕ
  mode : String
  px : ℕ → ℕ → RGBA

/-- Python's `int()` applied to a rational-valued number: truncation toward
zero. -/
def pyInt (q : ℚ) : ℤ := if 0 ≤ q then ⌊q⌋ else ⌈q⌉

/-- Round a rational to the nearest integer, ties to even — the rounding
used by IEEE-754 round-to-nearest. -/
def roundHalfEven (q : ℚ) : ℤ :=
  if q - ⌊q⌋ < 1/2 then ⌊q⌋
  else if 1/2 < q - ⌊q⌋ then ⌊q⌋ + 1
  else if 2 ∣ ⌊q⌋ then ⌊q⌋ else ⌊q⌋ + 1

/-- IEEE-754 binary64 rounding of an exact rational: the significand is
forced to 53 bits by round-to-nearest, ties-to-even. Valid for the normal
range (no overflow or subnormals), which covers every quantity the script
manipulates; CPython evaluates each float operation as this rounding of
the exact result. -/
def fround (q : ℚ) : ℚ :=
  if q = 0 then 0
  else
    (if q < 0 then -1 else 1) *
      (roundHalfEven (|q| * 2 ^ ((52 : ℤ) - Int.log 2 |q|)) : ℚ)
        * 2 ^ (Int.log 2 |q| - 52)

/-- Pillow's `MULDIV255` macro `(t = a*b + 128; (t + (t >> 8)) >> 8)` — the
rounding division by 255 used both by `ImageChops.multiply` and by the
per-channel blending of `Image.paste` with a mask. -/
def muldiv255 (x y : ℕ) : ℕ :=
  (x * y + 128 + (x * y + 128) / 256) / 256

/-- Line 14: `inner_size = int(size * (1 - padding_percent / 100))`,
evaluated as CPython does in IEEE-754 doubles: the division, the
subtraction, the int-to-float conversion of `size` and the multiplication
are each correctly rounded (`fround`), and `int()` truncates the result
toward zero. `padding_percent` is the exact value of the Python number
passed (an int, or a float — itself a dyadic rational). -/
def inner_size (size : ℤ) (padding_percent : ℚ) : ℤ :=
  pyInt (fround ((fround ((size : ℚ))) * fround (1 - fround (padding_percent / 100))))

/-- Lines 21–22: `radius = int(inner_size * corner_radius_percent / 100)`
followed by `radius = max(1, radius)`. -/
def corner_radius (inner : ℤ) (corner_radius_percent : ℚ) : ℤ :=
  max 1 (pyInt ((inner : ℚ) * corner_radius_percent / 100))

/-- Models `ImageDraw.rounded_rectangle([(0, 0), (n-1, n-1)], radius=r,
fill=255)` rasterized on an `n × n` black `"L"` image: a pixel is inside
the rounded boundary iff it lies in the horizontal or vertical straight
band of the rectangle, or within distance `r` of the nearest corner-arc
center. -/
def inside_rounded_rect (n r x y : ℕ) : Prop :=
  (r ≤ x ∧ x + r ≤ n - 1) ∨ (r ≤ y ∧ y + r ≤ n - 1) ∨
  ((x : ℤ) - (if (x : ℤ) < (r : ℤ) then (r : ℤ) else (n : ℤ) - 1 - r)) ^ 2
    + ((y : ℤ) - (if (y : ℤ) < (r : ℤ) then (r : ℤ) else (n : ℤ) - 1 - r)) ^ 2
    ≤ (r : ℤ) ^ 2

instance (n r x y : ℕ) : Decidable (inside_rounded_rect n r x y) := by
  unfold inside_rounded_rect
  infer_instance

/-- One pixel of the rounded-rectangle mask: 255 inside the boundary,
0 outside. -/
def maskPx (n r x y : ℕ) : ℕ := if inside_rounded_rect n r x y then 255 else 0

/-- Line 30:
`img_resized.putalpha(ImageChops.multiply(img_resized.getchannel("A"), mask))`
— every pixel keeps its color channels and its alpha becomes
`muldiv255(alpha, mask)`. -/
def apply_rounded_mask (img : Img) (n r : ℕ) : Img :=
  { img with px := fun x y =>
      { r := (img.px x y).r
        g := (img.px x y).g
        b := (img.px x y).b
        a := muldiv255 (img.px x y).a (maskPx n r x y) } }

/-- Models `img.resize((n, n), Image.Resampling.LANCZOS)` (line 17): the
result has exactly the requested dimensions and the source's mode; the
resampled pixel content is abstracted as a `kernel` (the fixed Lanczos
filter is one such kernel). -/
def resize (kernel : Img → ℕ → ℕ → ℕ → RGBA) (img : Img) (n : ℕ) : Img :=
  { width := n, height := n, mode := img.mode, px := kernel img n }

/-- Models `Image.new(mode, (w, h), c)` (line 33). -/
def image_new (mode : String) (w h : ℕ) (c : RGBA) : Img :=
  { width := w, height := h, mode := mode, px := fun _ _ => c }

/-- Pillow's `BLEND` macro for one channel of a masked paste:
`muldiv255(bg, 255 - m) + muldiv255(src, m)`. -/
def blend_channel (bg src m : ℕ) : ℕ := muldiv255 bg (255 - m) + muldiv255 src m

/-- Models `new_img.paste(img_resized, (pos, pos), img_resized)` (line 39):
inside the pasted box every channel — alpha included — is blended with the
source's own alpha band as the mask; outside it the background pixel is
kept. -/
def paste_self_mask (bg src : Img) (pos : ℤ) : Img :=
  { bg with px := fun x y =>
      if pos ≤ (x : ℤ) ∧ (x : ℤ) < pos + src.width
          ∧ pos ≤ (y : ℤ) ∧ (y : ℤ) < pos + src.height then
        { r := blend_channel (bg.px x y).r
                 (src.px ((x : ℤ) - pos).toNat ((y : ℤ) - pos).toNat).r
                 (src.px ((x : ℤ) - pos).toNat ((y : ℤ) - pos).toNat).a
          g := blend_channel (bg.px x y).g
                 (src.px ((x : ℤ) - pos).toNat ((y : ℤ) - pos).toNat).g
                 (src.px ((x : ℤ) - pos).toNat ((y : ℤ) - pos).toNat).a
          b := blend_channel (bg.px x y).b
                 (src.px ((x : ℤ) - pos).toNat ((y : ℤ) - pos).toNat).b
                 (src.px ((x : ℤ) - pos).toNat ((y : ℤ) - pos).toNat).a
          a := blend_channel (bg.px x y).a
                 (src.px ((x : ℤ) - pos).toNat ((y : ℤ) - pos).toNat).a
                 (src.px ((x : ℤ) - pos).toNat ((y : ℤ) - pos).toNat).a }
      else bg.px x y }

/-- Line 12: `Image.open(input_path).convert("RGBA")`. Pixels are already
held as RGBA quadruples in this model, so conversion is mode bookkeeping. -/
def convert_rgba (img : Img) : Img := { img with mode := "RGBA" }

/-- Lines 12–17: the decoded source converted to RGBA and resized to
`inner_size × inner_size`. -/
def resized_stage (kernel : Img → ℕ → ℕ → ℕ → RGBA) (source : Img)
    (size : ℤ) (padding_percent : ℚ) : Img :=
  resize kernel (convert_rgba source) (inner_size size padding_percent).toNat

/-- Lines 20–30: the resized image after the optional rounded-corner
masking, applied only when `corner_radius_percent > 0`. -/
def masked_stage (kernel : Img → ℕ → ℕ → ℕ → RGBA) (source : Img)
    (size : ℤ) (padding_percent corner_radius_percent : ℚ) : Img :=
  if 0 < corner_radius_percent then
    apply_rounded_mask (resized_stage kernel source size padding_percent)
      (inner_size size padding_percent).toNat
      (corner_radius (inner_size size padding_percent) corner_radius_percent).toNat
  else resized_stage kernel source size padding_percent

/-- The in-memory transformation of `create_icon_with_padding`
(lines 11–39), from the decoded source image to the final canvas. Pillow
raises `ValueError` when `resize` is asked for a non-positive size
(line 17, reached exactly when `inner_size ≤ 0`) and when `Image.new` is
asked for a negative one (line 33); both are modelled as `Except.error`
carrying Pillow's message. The surrounding file I/O (lines 12 and 42–43)
is modelled separately by `create_icon_effects`. -/
def create_icon_with_padding (kernel : Img → ℕ → ℕ → ℕ → RGBA) (source : Img)
    (size : ℤ) (padding_percent corner_radius_percent : ℚ) : Except String Img :=
  if inner_size size padding_percent ≤ 0 then
    .error "height and width must be > 0"
  else if size < 0 then
    .error "Width and height must be >= 0"
  else
    .ok (paste_self_mask
      (image_new "RGBA" size.toNat size.toNat ⟨0, 0, 0, 0⟩)
      (masked_stage kernel source size padding_percent corner_radius_percent)
      (Int.fdiv (size - inner_size size padding_percent) 2))

/-- A file-system or console effect performed by the script. -/
inductive Effect where
  | readFile : String → Effect
  | writeFile : String → Effect
  | printLine : String → Effect
deriving DecidableEq, Repr

/-- The I/O effects `create_icon_with_padding` itself performs, in order:
`Image.open(input_path)` (line 12), `new_img.save(output_path, "PNG")`
(line 42), and the console print (line 43). -/
def create_icon_effects (input_path output_path : String) (size : ℤ) : List Effect :=
  [.readFile input_path,
   .writeFile output_path,
   .printLine ("Created: " ++ output_path ++ " (" ++ toString size ++ "x"
     ++ toString size ++ ")")]

/-- Bitmap equality: same dimensions and mode, and every in-bounds pixel
agrees. -/
def Img.bitmapEq (i j : Img) : Prop :=
  i.width = j.width ∧ i.height = j.height ∧ i.mode = j.mode ∧
  ∀ x y, x < i.width → y < i.height → i.px x y = j.px x y

/-- Bitmap equality lifted to the fallible result of a render. -/
def exceptBitmapEq : Except String Img → Except String Img → Prop
  | .ok i, .ok j => i.bitmapEq j
  | .error e, .error f => e = f
  | _, _ => False

/-- A resampling kernel whose every output pixel is the given constant
(used to instantiate the abstract Lanczos kernel on concrete inputs). -/
def constKernel (p : RGBA) : Img → ℕ → ℕ → ℕ → RGBA := fun _ _ _ _ => p

/-- A 4×4 source image whose every pixel is half-transparent. -/
def srcHalf : Img := ⟨4, 4, "RGB", fun _ _ => ⟨10, 20, 30, 128⟩⟩

/-- The constant half-transparent kernel. -/
def kHalf : Img → ℕ → ℕ → ℕ → RGBA := constKernel ⟨10, 20, 30, 128⟩

/-- The constant fully-opaque kernel. -/
def kOpaque : Img → ℕ → ℕ → ℕ → RGBA := constKernel ⟨1, 2, 3, 255⟩

/-! ### Helper lemmas -/

lemma pyInt_eq_floor (q : ℚ) (h : 0 ≤ q) : pyInt q = ⌊q⌋ := by
  simp [pyInt, h]

lemma pyInt_intCast (n : ℤ) : pyInt (n : ℚ) = n := by
  unfold pyInt
  split
  · exact Int.floor_intCast n
  · exact Int.ceil_intCast n

lemma pyInt_le_int (r : ℚ) (n : ℤ) (h : r ≤ (n:ℚ)) : pyInt r ≤ n := by
  unfold pyInt
  split
  · calc ⌊r⌋ ≤ ⌊(n:ℚ)⌋ := Int.floor_le_floor h
      _ = n := Int.floor_intCast n
  · calc ⌈r⌉ ≤ ⌈(n:ℚ)⌉ := Int.ceil_le_ceil h
      _ = n := Int.ceil_intCast n

lemma rhe_intCast (n : ℤ) : roundHalfEven (n : ℚ) = n := by
  simp [roundHalfEven]

lemma floor_le_rhe (q : ℚ) : ⌊q⌋ ≤ roundHalfEven q := by
  unfold roundHalfEven
  split
  · exact le_refl _
  · split
    · omega
    · split <;> omega

lemma rhe_le_ceil (q : ℚ) : roundHalfEven q ≤ ⌈q⌉ := by
  unfold roundHalfEven
  split
  · exact Int.floor_le_ceil q
  · rename_i h
    push_neg at h
    have hlt : (⌊q⌋ : ℚ) < q := by linarith
    have hle : ⌊q⌋ + 1 ≤ ⌈q⌉ := Int.add_one_le_ceil_iff.mpr hlt
    split
    · exact hle
    · split
      · omega
      · exact hle

lemma log_eq_of_bounds (q : ℚ) (e : ℤ) (hq : 0 < q)
    (h1 : (2:ℚ) ^ e ≤ q) (h2 : q < (2:ℚ) ^ (e + 1)) : Int.log 2 q = e := by
  have ha : e ≤ Int.log 2 q :=
    (Int.zpow_le_iff_le_log (by norm_num) hq).mp (by exact_mod_cast h1)
  have hb : Int.log 2 q < e + 1 :=
    (Int.lt_zpow_iff_log_lt (by norm_num) hq).mp (by exact_mod_cast h2)
  omega

/-- Evaluation rule for `fround` on a positive rational, given its binade
`[2^e, 2^(e+1))` and the rounded 53-bit significand `m`. -/
lemma fround_eq_pos (q : ℚ) (e m : ℤ) (hq : 0 < q)
    (h1 : (2:ℚ) ^ e ≤ q) (h2 : q < (2:ℚ) ^ (e + 1))
    (h3 : roundHalfEven (q * 2 ^ ((52 : ℤ) - e)) = m) :
    fround q = (m : ℚ) * 2 ^ (e - 52) := by
  unfold fround
  rw [if_neg hq.ne.symm, if_neg (by linarith : ¬ q < 0)]
  rw [abs_of_pos hq, log_eq_of_bounds q e hq h1 h2, h3, one_mul]

lemma fround_zero : fround 0 = 0 := by
  simp [fround]

lemma fround_one : fround (1 : ℚ) = 1 := by
  rw [fround_eq_pos 1 0 4503599627370496 (by norm_num) (by norm_num) (by norm_num)
    (by rw [show ((1:ℚ) * 2 ^ ((52:ℤ) - 0)) = (((4503599627370496:ℤ)):ℚ) by norm_num]
        exact rhe_intCast _)]
  norm_num

lemma fround_nonneg (q : ℚ) (h : 0 ≤ q) : 0 ≤ fround q := by
  unfold fround
  rcases eq_or_lt_of_le h with h0 | h0
  · rw [if_pos h0.symm]
  · rw [if_neg h0.ne.symm, if_neg (by linarith)]
    have hfl : 0 ≤ ⌊|q| * 2 ^ ((52:ℤ) - Int.log 2 |q|)⌋ :=
      Int.floor_nonneg.mpr (by positivity)
    have hm : 0 ≤ roundHalfEven (|q| * 2 ^ ((52:ℤ) - Int.log 2 |q|)) := by
      have := floor_le_rhe (|q| * 2 ^ ((52:ℤ) - Int.log 2 |q|))
      omega
    have hmq : (0:ℚ) ≤ (roundHalfEven (|q| * 2 ^ ((52:ℤ) - Int.log 2 |q|)) : ℚ) := by
      exact_mod_cast hm
    rw [one_mul]
    exact mul_nonneg hmq (by positivity)

lemma fround_nonpos (q : ℚ) (h : q ≤ 0) : fround q ≤ 0 := by
  unfold fround
  rcases eq_or_lt_of_le h with h0 | h0
  · rw [if_pos h0]
  · rw [if_neg h0.ne, if_pos h0]
    have hfl : 0 ≤ ⌊|q| * 2 ^ ((52:ℤ) - Int.log 2 |q|)⌋ :=
      Int.floor_nonneg.mpr (by positivity)
    have hm : 0 ≤ roundHalfEven (|q| * 2 ^ ((52:ℤ) - Int.log 2 |q|)) := by
      have := floor_le_rhe (|q| * 2 ^ ((52:ℤ) - Int.log 2 |q|))
      omega
    have hmq : (0:ℚ) ≤ (roundHalfEven (|q| * 2 ^ ((52:ℤ) - Int.log 2 |q|)) : ℚ) := by
      exact_mod_cast hm
    have hp : (0:ℚ) ≤ (roundHalfEven (|q| * 2 ^ ((52:ℤ) - Int.log 2 |q|)) : ℚ)
        * 2 ^ (Int.log 2 |q| - 52) := mul_nonneg hmq (by positivity)
    nlinarith

lemma log_le_53 (q : ℚ) (hq : 0 < q) (hle : q ≤ (2:ℚ) ^ (53:ℤ)) :
    Int.log 2 q ≤ 53 := by
  have h := @Int.log_mono_right ℚ _ _ 2 q ((2:ℚ) ^ (53:ℤ)) hq hle
  have he : Int.log 2 ((2:ℚ) ^ (53:ℤ)) = 53 := by
    rw [show ((2:ℚ) ^ (53:ℤ)) = (((2:ℕ):ℚ)) ^ (53:ℤ) by norm_num]
    exact @Int.log_zpow ℚ _ _ 2 (by norm_num) 53
  omega

lemma fround_two_pow_53 :
    fround (((2:ℤ) ^ (53:ℕ) : ℤ) : ℚ) = (((2:ℤ) ^ (53:ℕ) : ℤ) : ℚ) := by
  rw [fround_eq_pos _ 53 ((2:ℤ) ^ (52:ℕ)) (by norm_num) (by norm_num) (by norm_num)
    (by rw [show ((((2:ℤ) ^ (53:ℕ) : ℤ) : ℚ)) * 2 ^ ((52:ℤ) - 53)
          = (((2:ℤ) ^ (52:ℕ) : ℤ) : ℚ) by norm_num]
        exact rhe_intCast _)]
  norm_num

/-- Integers up to `2^53` are exactly representable in binary64, so the
int-to-float conversion performed by `size * float` is the identity on
them. -/
lemma fround_int_exact (s : ℤ) (h0 : 0 < s) (h53 : s ≤ 2 ^ 53) :
    fround (s : ℚ) = (s : ℚ) := by
  have hq : (0:ℚ) < (s:ℚ) := by exact_mod_cast h0
  have hs2 : (s:ℚ) ≤ (2:ℚ) ^ (53:ℤ) := by
    have h : s ≤ 9007199254740992 := by
      have := h53
      norm_num at this
      exact this
    have hc : (s:ℚ) ≤ 9007199254740992 := by exact_mod_cast h
    linarith [show ((2:ℚ) ^ (53:ℤ)) = 9007199254740992 by norm_num]
  have h1 : (2:ℚ) ^ Int.log 2 (s:ℚ) ≤ (s:ℚ) := Int.zpow_log_le_self (by norm_num) hq
  have h2 : (s:ℚ) < (2:ℚ) ^ (Int.log 2 (s:ℚ) + 1) :=
    Int.lt_zpow_succ_log_self (by norm_num) _
  have he53 : Int.log 2 (s:ℚ) ≤ 53 := log_le_53 _ hq hs2
  rcases lt_or_eq_of_le he53 with he52 | heq
  · set e := Int.log 2 (s:ℚ) with he
    have hk : (52 - e : ℤ) = (((52 - e).toNat : ℕ) : ℤ) :=
      (Int.toNat_of_nonneg (by omega)).symm
    set k := (52 - e).toNat with hkdef
    have hsc : (s:ℚ) * 2 ^ ((52:ℤ) - e) = ((s * 2 ^ k : ℤ) : ℚ) := by
      rw [show ((52:ℤ) - e) = (k:ℤ) from hk, zpow_natCast]
      push_cast
      ring
    rw [fround_eq_pos (s:ℚ) e (s * 2 ^ k) hq h1 h2 (by rw [hsc]; exact rhe_intCast _)]
    push_cast
    rw [show (e - 52 : ℤ) = -(k:ℤ) by omega, zpow_neg, zpow_natCast]
    field_simp
  · have hs1 : ((2:ℚ) ^ (53:ℤ)) ≤ (s:ℚ) := by
      rw [← heq]
      exact h1
    have hs_eq : s = 2 ^ 53 := by
      have ha : (9007199254740992:ℚ) ≤ (s:ℚ) := by
        linarith [show ((2:ℚ) ^ (53:ℤ)) = 9007199254740992 by norm_num]
      have hb : (9007199254740992:ℤ) ≤ s := by exact_mod_cast ha
      omega
    subst hs_eq
    exact fround_two_pow_53

/-- Correct rounding never rounds a value above a representable integer
bound: pasting through the 53-bit grid, `fround q ≤ s` whenever
`q ≤ s ≤ 2^53`. -/
lemma fround_le_int (q : ℚ) (s : ℤ) (hq : 0 < q) (hs : 0 < s) (h53 : s ≤ 2 ^ 53)
    (hle : q ≤ (s:ℚ)) : fround q ≤ (s:ℚ) := by
  have hs2 : (s:ℚ) ≤ (2:ℚ) ^ (53:ℤ) := by
    have h : s ≤ 9007199254740992 := by
      have := h53
      norm_num at this
      exact this
    have hc : (s:ℚ) ≤ 9007199254740992 := by exact_mod_cast h
    linarith [show ((2:ℚ) ^ (53:ℤ)) = 9007199254740992 by norm_num]
  have h1 : (2:ℚ) ^ Int.log 2 q ≤ q := Int.zpow_log_le_self (by norm_num) hq
  have h2 : q < (2:ℚ) ^ (Int.log 2 q + 1) := Int.lt_zpow_succ_log_self (by norm_num) _
  have he53 : Int.log 2 q ≤ 53 := log_le_53 _ hq (hle.trans hs2)
  rcases lt_or_eq_of_le he53 with he52 | heq
  · set e := Int.log 2 q with he
    have hk : (52 - e : ℤ) = (((52 - e).toNat : ℕ) : ℤ) :=
      (Int.toNat_of_nonneg (by omega)).symm
    set k := (52 - e).toNat with hkdef
    have hm : roundHalfEven (q * 2 ^ ((52:ℤ) - e)) ≤ s * 2 ^ k := by
      refine (rhe_le_ceil _).trans (Int.ceil_le.mpr ?_)
      have hcast : ((s * 2 ^ k : ℤ) : ℚ) = (s:ℚ) * 2 ^ ((52:ℤ) - e) := by
        rw [show ((52:ℤ) - e) = (k:ℤ) from hk, zpow_natCast]
        push_cast
        ring
      rw [hcast]
      exact mul_le_mul_of_nonneg_right hle (by positivity)
    rw [fround_eq_pos q e (roundHalfEven (q * 2 ^ ((52:ℤ) - e))) hq h1 h2 rfl]
    have hmq : ((roundHalfEven (q * 2 ^ ((52:ℤ) - e)) : ℤ) : ℚ)
        ≤ ((s * 2 ^ k : ℤ) : ℚ) := by exact_mod_cast hm
    calc ((roundHalfEven (q * 2 ^ ((52:ℤ) - e)) : ℤ) : ℚ) * 2 ^ (e - 52)
        ≤ ((s * 2 ^ k : ℤ) : ℚ) * 2 ^ (e - 52) :=
          mul_le_mul_of_nonneg_right hmq (by positivity)
      _ = (s:ℚ) := by
          push_cast
          rw [show (e - 52 : ℤ) = -(k:ℤ) by omega, zpow_neg, zpow_natCast]
          field_simp
  · have hq53 : ((2:ℚ) ^ (53:ℤ)) ≤ q := by
      rw [← heq]
      exact h1
    have hqs : q = (s:ℚ) := le_antisymm hle (by linarith)
    have hs_eq : s = 2 ^ 53 := by
      have ha : (9007199254740992:ℚ) ≤ (s:ℚ) := by
        linarith [show ((2:ℚ) ^ (53:ℤ)) = 9007199254740992 by norm_num]
      have hb : (9007199254740992:ℤ) ≤ s := by exact_mod_cast ha
      omega
    rw [hqs, hs_eq]
    exact le_of_eq fround_two_pow_53

lemma muldiv255_zero_left (y : ℕ) : muldiv255 0 y = 0 := by
  simp [muldiv255]

lemma muldiv255_zero_right (x : ℕ) : muldiv255 x 0 = 0 := by
  simp [muldiv255]

set_option maxRecDepth 10000 in
lemma muldiv255_full_fin : ∀ a : Fin 256, muldiv255 a.val 255 = a.val := by
  decide

lemma muldiv255_full (a : ℕ) (h : a ≤ 255) : muldiv255 a 255 = a :=
  muldiv255_full_fin ⟨a, by omega⟩

set_option maxRecDepth 10000 in
lemma muldiv255_self_lt_fin :
    ∀ a : Fin 256, 0 < a.val → a.val < 255 → muldiv255 a.val a.val < a.val := by
  decide

lemma muldiv255_self_lt (a : ℕ) (h0 : 0 < a) (h1 : a < 255) :
    muldiv255 a a < a :=
  muldiv255_self_lt_fin ⟨a, by omega⟩ h0 h1

lemma blend_channel_transparent_bg (s : ℕ) :
    blend_channel 0 s s = muldiv255 s s := by
  simp [blend_channel, muldiv255_zero_left]

/-- With no padding the whole pipeline is float-exact: `0/100 = 0`,
`1 - 0 = 1`, and integers up to `2^53` convert and multiply exactly. -/
lemma inner_size_pad_zero (size : ℤ) (h0 : 0 < size) (h53 : size ≤ 2 ^ 53) :
    inner_size size 0 = size := by
  unfold inner_size
  rw [show ((0:ℚ)/100) = 0 by norm_num, fround_zero, sub_zero, fround_one,
    fround_int_exact size h0 h53, mul_one, fround_int_exact size h0 h53]
  exact pyInt_intCast size

/-- The float pipeline never produces an inner size above the target:
each rounding stays below the representable bounds `1` and `size`. -/
lemma inner_size_le (size : ℤ) (pp : ℚ) (hs : 0 < size) (h53 : size ≤ 2 ^ 53)
    (h0 : 0 ≤ pp) : inner_size size pp ≤ size := by
  unfold inner_size
  have hx : 0 ≤ fround (pp / 100) := fround_nonneg _ (by positivity)
  have hz1 : (1:ℚ) - fround (pp / 100) ≤ 1 := by linarith
  have hy1 : fround (1 - fround (pp / 100)) ≤ 1 := by
    rcases le_or_lt (1 - fround (pp / 100)) 0 with h | h
    · exact (fround_nonpos _ h).trans (by norm_num)
    · have := fround_le_int (1 - fround (pp / 100)) 1 h (by norm_num) (by norm_num)
        (by exact_mod_cast hz1)
      exact_mod_cast this
  rw [fround_int_exact size hs h53]
  have hsq : (0:ℚ) ≤ (size:ℚ) := by exact_mod_cast hs.le
  have hws : (size:ℚ) * fround (1 - fround (pp / 100)) ≤ (size:ℚ) := by nlinarith
  have hfw : fround ((size:ℚ) * fround (1 - fround (pp / 100))) ≤ (size:ℚ) := by
    rcases le_or_lt ((size:ℚ) * fround (1 - fround (pp / 100))) 0 with h | h
    · exact (fround_nonpos _ h).trans hsq
    · exact fround_le_int _ size h hs h53 hws
  exact pyInt_le_int _ _ hfw

/-- Float trace of line 14 at `size = 8`, `padding_percent = 25`: every
intermediate value is exactly representable, giving inner size 6. -/
lemma inner_size_8_25 : inner_size 8 25 = 6 := by
  unfold inner_size
  have e1 : fround ((25:ℚ)/100) = 1/4 := by
    rw [fround_eq_pos ((25:ℚ)/100) (-2) 4503599627370496 (by norm_num) (by norm_num)
      (by norm_num) (by unfold roundHalfEven; norm_num)]
    norm_num
  have e2 : (1:ℚ) - 1/4 = 3/4 := by norm_num
  have e3 : fround ((3:ℚ)/4) = 3/4 := by
    rw [fround_eq_pos ((3:ℚ)/4) (-1) 6755399441055744 (by norm_num) (by norm_num)
      (by norm_num) (by unfold roundHalfEven; norm_num)]
    norm_num
  have e4 : fround (((8:ℤ)):ℚ) = ((8:ℤ):ℚ) :=
    fround_int_exact 8 (by norm_num) (by norm_num)
  have e5 : (((8:ℤ)):ℚ) * (3/4) = 6 := by norm_num
  have e6 : fround ((6:ℚ)) = 6 := by
    have h := fround_int_exact 6 (by norm_num) (by norm_num)
    push_cast at h
    exact h
  rw [e1, e2, e3, e4, e5, e6]
  norm_num [pyInt]

/-- Float trace of line 14 at `size = 500`, `padding_percent = 7`:
`7/100` rounds up, `1 - 0.07...` hits a tie resolved to even, and the
final product rounds to `465 - 2^(-44)`, so `int()` gives 464 — one
below the exact `⌊500 × 0.93⌋ = 465`. -/
lemma inner_size_500_7 : inner_size 500 7 = 464 := by
  unfold inner_size
  have e1 : fround ((7:ℚ)/100) = 5044031582654956/72057594037927936 := by
    rw [fround_eq_pos ((7:ℚ)/100) (-4) 5044031582654956 (by norm_num) (by norm_num)
      (by norm_num) (by unfold roundHalfEven; norm_num)]
    norm_num
  have e2 : (1:ℚ) - 5044031582654956/72057594037927936
      = 16753390613818245/18014398509481984 := by norm_num
  have e3 : fround ((16753390613818245:ℚ)/18014398509481984)
      = 8376695306909122/9007199254740992 := by
    rw [fround_eq_pos ((16753390613818245:ℚ)/18014398509481984) (-1) 8376695306909122
      (by norm_num) (by norm_num) (by norm_num)
      (by unfold roundHalfEven; norm_num)]
    norm_num
  have e4 : fround (((500:ℤ)):ℚ) = ((500:ℤ):ℚ) :=
    fround_int_exact 500 (by norm_num) (by norm_num)
  have e5 : (((500:ℤ)):ℚ) * (8376695306909122/9007199254740992)
      = 523543456681820125/1125899906842624 := by norm_num
  have e6 : fround ((523543456681820125:ℚ)/1125899906842624)
      = 8180366510653439/17592186044416 := by
    rw [fround_eq_pos ((523543456681820125:ℚ)/1125899906842624) 8 8180366510653439
      (by norm_num) (by norm_num) (by norm_num)
      (by unfold roundHalfEven; norm_num)]
    norm_num
  rw [e1, e2, e3, e4, e5, e6]
  norm_num [pyInt]

/-- Float trace of line 14 at `size = 10`, `padding_percent = 90`:
`10 * (1 - 0.9)` evaluates to `1 - 2^(-52)`, so `int()` gives 0 and the
program's resize raises, although the exact inner size would be 1. -/
lemma inner_size_10_90 : inner_size 10 90 = 0 := by
  unfold inner_size
  have e1 : fround ((90:ℚ)/100) = 8106479329266893/9007199254740992 := by
    rw [fround_eq_pos ((90:ℚ)/100) (-1) 8106479329266893 (by norm_num) (by norm_num)
      (by norm_num) (by unfold roundHalfEven; norm_num)]
    norm_num
  have e2 : (1:ℚ) - 8106479329266893/9007199254740992
      = 900719925474099/9007199254740992 := by norm_num
  have e3 : fround ((900719925474099:ℚ)/9007199254740992)
      = 900719925474099/9007199254740992 := by
    rw [fround_eq_pos ((900719925474099:ℚ)/9007199254740992) (-4) 7205759403792792
      (by norm_num) (by norm_num) (by norm_num)
      (by unfold roundHalfEven; norm_num)]
    norm_num
  have e4 : fround (((10:ℤ)):ℚ) = ((10:ℤ):ℚ) :=
    fround_int_exact 10 (by norm_num) (by norm_num)
  have e5 : (((10:ℤ)):ℚ) * (900719925474099/9007199254740992)
      = 4503599627370495/4503599627370496 := by norm_num
  have e6 : fround ((4503599627370495:ℚ)/4503599627370496)
      = 4503599627370495/4503599627370496 := by
    rw [fround_eq_pos ((4503599627370495:ℚ)/4503599627370496) (-1) 9007199254740990
      (by norm_num) (by norm_num) (by norm_num)
      (by unfold roundHalfEven; norm_num)]
    norm_num
  rw [e1, e2, e3, e4, e5, e6]
  norm_num [pyInt]

lemma masked_stage_width (kernel : Img → ℕ → ℕ → ℕ → RGBA) (source : Img)
    (size : ℤ) (pp crp : ℚ) :
    (masked_stage kernel source size pp crp).width = (inner_size size pp).toNat := by
  unfold masked_stage
  split <;> rfl

lemma masked_stage_height (kernel : Img → ℕ → ℕ → ℕ → RGBA) (source : Img)
    (size : ℤ) (pp crp : ℚ) :
    (masked_stage kernel source size pp crp).height = (inner_size size pp).toNat := by
  unfold masked_stage
  split <;> rfl

lemma create_eq_ok (kernel : Img → ℕ → ℕ → ℕ → RGBA) (source : Img)
    (size : ℤ) (pp crp : ℚ)
    (h1 : 1 ≤ inner_size size pp) (h2 : 0 ≤ size) :
    create_icon_with_padding kernel source size pp crp =
      .ok (paste_self_mask
        (image_new "RGBA" size.toNat size.toNat ⟨0, 0, 0, 0⟩)
        (masked_stage kernel source size pp crp)
        (Int.fdiv (size - inner_size size pp) 2)) := by
  unfold create_icon_with_padding
  rw [if_neg (by omega), if_neg (by omega)]

lemma fdiv_two_nonneg (a : ℤ) (h : 0 ≤ a) : 0 ≤ Int.fdiv a 2 := by
  rw [Int.fdiv_eq_ediv _ (by omega)]
  omega

lemma paste_px_inside (bg src : Img) (pos : ℤ) (hpos : 0 ≤ pos) (x y : ℕ)
    (hx : x < src.width) (hy : y < src.height) :
    (paste_self_mask bg src pos).px (pos.toNat + x) (pos.toNat + y) =
      { r := blend_channel (bg.px (pos.toNat + x) (pos.toNat + y)).r
               (src.px x y).r (src.px x y).a
        g := blend_channel (bg.px (pos.toNat + x) (pos.toNat + y)).g
               (src.px x y).g (src.px x y).a
        b := blend_channel (bg.px (pos.toNat + x) (pos.toNat + y)).b
               (src.px x y).b (src.px x y).a
        a := blend_channel (bg.px (pos.toNat + x) (pos.toNat + y)).a
               (src.px x y).a (src.px x y).a } := by
  have hcx : ((pos.toNat + x : ℕ) : ℤ) - pos = (x : ℤ) := by omega
  have hcy : ((pos.toNat + y : ℕ) : ℤ) - pos = (y : ℤ) := by omega
  simp only [paste_self_mask]
  rw [if_pos (by omega)]
  simp only [hcx, hcy, Int.toNat_natCast]

lemma paste_px_outside (bg src : Img) (pos : ℤ) (x y : ℕ)
    (h : (x : ℤ) < pos ∨ (pos + src.width : ℤ) ≤ x
      ∨ (y : ℤ) < pos ∨ (pos + src.height : ℤ) ≤ y) :
    (paste_self_mask bg src pos).px x y = bg.px x y := by
  simp only [paste_self_mask]
  rw [if_neg]
  rintro ⟨h1, h2, h3, h4⟩
  omega

lemma not_inside_corner (n r c d : ℕ) (hr : 1 ≤ r) (hn : 2 * r + 2 ≤ n)
    (hc : c = 0 ∨ c = n - 1) (hd : d = 0 ∨ d = n - 1) :
    ¬ inside_rounded_rect n r c d := by
  have hrz : (1 : ℤ) ≤ (r : ℤ) := by exact_mod_cast hr
  intro h
  rcases h with ⟨h1, h2⟩ | ⟨h1, h2⟩ | h
  · rcases hc with rfl | rfl <;> omega
  · rcases hd with rfl | rfl <;> omega
  · have ec : ((c : ℤ) - (if (c : ℤ) < (r : ℤ) then (r : ℤ) else (n : ℤ) - 1 - r)) ^ 2
        = (r : ℤ) ^ 2 := by
      rcases hc with rfl | rfl
      · rw [if_pos (by omega)]
        ring_nf
      · rw [if_neg (by omega)]
        have : ((n - 1 : ℕ) : ℤ) = (n : ℤ) - 1 := by omega
        rw [this]
        ring_nf
    have ed : ((d : ℤ) - (if (d : ℤ) < (r : ℤ) then (r : ℤ) else (n : ℤ) - 1 - r)) ^ 2
        = (r : ℤ) ^ 2 := by
      rcases hd with rfl | rfl
      · rw [if_pos (by omega)]
        ring_nf
      · rw [if_neg (by omega)]
        have : ((n - 1 : ℕ) : ℤ) = (n : ℤ) - 1 := by omega
        rw [this]
        ring_nf
    rw [ec, ed] at h
    nlinarith

lemma inside_band (n r x y : ℕ) (hx1 : r ≤ x) (hx2 : x + r ≤ n - 1) :
    inside_rounded_rect n r x y :=
  Or.inl ⟨hx1, hx2⟩

lemma apply_rounded_mask_alpha (img : Img) (n r x y : ℕ) :
    ((apply_rounded_mask img n r).px x y).a =
      muldiv255 ((img.px x y).a) (maskPx n r x y) := rfl

lemma maskPx_inside (n r x y : ℕ) (h : inside_rounded_rect n r x y) :
    maskPx n r x y = 255 := by
  simp [maskPx, h]

lemma maskPx_outside (n r x y : ℕ) (h : ¬ inside_rounded_rect n r x y) :
    maskPx n r x y = 0 := by
  simp [maskPx, h]

lemma inner_size_of_zero (pp : ℚ) : inner_size 0 pp = 0 := by
  unfold inner_size
  rw [Int.cast_zero, fround_zero, zero_mul, fround_zero]
  norm_num [pyInt]

lemma muldiv255_le_255 (a b : ℕ) (ha : a ≤ 255) (hb : b ≤ 255) :
    muldiv255 a b ≤ 255 := by
  unfold muldiv255
  have h : a * b ≤ 255 * 255 := Nat.mul_le_mul ha hb
  omega

lemma maskPx_le (n r x y : ℕ) : maskPx n r x y ≤ 255 := by
  unfold maskPx
  split <;> omega

lemma corner_radius_one_le (inner : ℤ) (crp : ℚ) :
    1 ≤ corner_radius inner crp :=
  le_max_left _ _

lemma masked_stage_alpha_le (kernel : Img → ℕ → ℕ → ℕ → RGBA) (source : Img)
    (size : ℤ) (pp crp : ℚ) (hk : ∀ i m u v, (kernel i m u v).a ≤ 255) (x y : ℕ) :
    ((masked_stage kernel source size pp crp).px x y).a ≤ 255 := by
  unfold masked_stage
  split
  · exact muldiv255_le_255 _ _ (hk _ _ _ _) (maskPx_le _ _ _ _)
  · exact hk _ _ _ _

/-- The alpha of the output pixel at inner-region coordinates `(x, y)`
(shifted by the centering offset) is the self-blend `muldiv255 a a` of the
masked stage's alpha `a` there. -/
lemma out_alpha_at (kernel : Img → ℕ → ℕ → ℕ → RGBA) (source : Img)
    (size : ℤ) (pp crp : ℚ)
    (h1 : 1 ≤ inner_size size pp) (h2 : inner_size size pp ≤ size) (x y : ℕ)
    (hx : x < (inner_size size pp).toNat) (hy : y < (inner_size size pp).toNat) :
    ((paste_self_mask
        (image_new "RGBA" size.toNat size.toNat ⟨0, 0, 0, 0⟩)
        (masked_stage kernel source size pp crp)
        (Int.fdiv (size - inner_size size pp) 2)).px
      ((Int.fdiv (size - inner_size size pp) 2).toNat + x)
      ((Int.fdiv (size - inner_size size pp) 2).toNat + y)).a
    = muldiv255 ((masked_stage kernel source size pp crp).px x y).a
        ((masked_stage kernel source size pp crp).px x y).a := by
  rw [paste_px_inside _ _ _ (fdiv_two_nonneg _ (by omega)) x y
    (by rw [masked_stage_width]; exact hx)
    (by rw [masked_stage_height]; exact hy)]
  exact blend_channel_transparent_bg _

/-! ### Claim theorems -/

/-- C1: for every `target_size > 0` and padding fraction in `[0, 1)`
(`padding_percent = 100 × fraction`) whose computed inner size is at least
1, `create_icon_with_padding` succeeds and its output is exactly
`target_size × target_size` pixels in RGBA mode, for every source image,
resampling kernel, and corner-radius percentage. -/
theorem C1_output_dimensions (kernel : Img → ℕ → ℕ → ℕ → RGBA) (source : Img)
    (size : ℤ) (pp crp : ℚ)
    (hsize : 0 < size) (hpp0 : 0 ≤ pp) (hpp1 : pp < 100)
    (hinner : 1 ≤ inner_size size pp) :
    ∃ out, create_icon_with_padding kernel source size pp crp = .ok out ∧
      out.width = size.toNat ∧ out.height = size.toNat ∧ out.mode = "RGBA" :=
  ⟨_, create_eq_ok kernel source size pp crp hinner hsize.le, rfl, rfl, rfl⟩

/-- Witness for C1 at `size = 8`, `padding_percent = 25`
(the program's float inner size is 6). -/
theorem C1_output_dimensions_witness :
    ∃ out, create_icon_with_padding kOpaque srcHalf 8 25 20 = .ok out ∧
      out.width = (8 : ℤ).toNat ∧ out.height = (8 : ℤ).toNat ∧ out.mode = "RGBA" :=
  C1_output_dimensions kOpaque srcHalf 8 25 20 (by norm_num) (by norm_num)
    (by norm_num) (by rw [inner_size_8_25]; norm_num)

/-- C2 counterexample: line 14 evaluates in IEEE-754 doubles, and at
`size = 500`, `padding_percent = 7` the product comes out as
`465 - 2^(-44)`, so the program computes inner size 464 while the claimed
exact formula `⌊500 × (1 − 7/100)⌋` gives 465. -/
theorem C2_counterexample :
    inner_size 500 7 = 464 ∧ ⌊(500 : ℚ) * (1 - 7 / 100)⌋ = 465 ∧
    (464 : ℤ) ≠ 465 :=
  ⟨inner_size_500_7, by norm_num, by norm_num⟩

/-- C2 (amended): the renderer computes the inner size as the
toward-zero truncation of the IEEE-754 double evaluation of
`size × (1 − padding_percent / 100)`, which can fall below the exact
`⌊size × (1 − fraction)⌋` when rounding crosses an integer; the claim's
boundary case survives: `padding_percent = 0` yields
`inner_size = target_size` exactly (every step is float-exact for
`size ≤ 2^53`), and the inner size never exceeds the target. -/
theorem C2_inner_size_float (size : ℤ) (pp : ℚ)
    (hsize : 0 < size) (h53 : size ≤ 2 ^ 53) (hpp0 : 0 ≤ pp) :
    inner_size size 0 = size ∧ inner_size size pp ≤ size :=
  ⟨inner_size_pad_zero size hsize h53, inner_size_le size pp hsize h53 hpp0⟩

/-- Witness for C2 (amended) at `size = 256`, `padding_percent = 15`. -/
theorem C2_inner_size_float_witness :
    inner_size 256 0 = 256 ∧ inner_size 256 15 ≤ 256 :=
  C2_inner_size_float 256 15 (by norm_num) (by norm_num) (by norm_num)

/-- C4: for every positive `corner_radius_percent` the radius handed to the
rounded-rectangle mask equals
`max(1, ⌊inner_size × corner_radius_percent / 100⌋)` — it is computed from
the inner size, not the target size, and is never less than one pixel. -/
theorem C4_radius_formula (inner : ℤ) (crp : ℚ)
    (hinner : 0 ≤ inner) (hcrp : 0 < crp) :
    corner_radius inner crp = max 1 ⌊(inner : ℚ) * crp / 100⌋ ∧
    1 ≤ corner_radius inner crp := by
  refine ⟨?_, le_max_left _ _⟩
  unfold corner_radius
  rw [pyInt_eq_floor]
  have h : (0 : ℚ) ≤ (inner : ℚ) := by exact_mod_cast hinner
  exact div_nonneg (mul_nonneg h hcrp.le) (by norm_num)

/-- Witness for C4 at `inner_size = 217`, `corner_radius_percent = 20`
(`radius = 43`). -/
theorem C4_radius_formula_witness :
    (corner_radius 217 20 = max 1 ⌊(217 : ℚ) * 20 / 100⌋ ∧
      1 ≤ corner_radius 217 20) ∧
    corner_radius 217 20 = 43 :=
  ⟨C4_radius_formula 217 20 (by norm_num) (by norm_num),
   by norm_num [corner_radius, pyInt]⟩

/-- C5: the resized image is composited at
`pos = ⌊(size − inner_size) / 2⌋` on both axes: every output pixel outside
the centered `inner_size × inner_size` box is fully transparent
`(0, 0, 0, 0)`, the offset is nonnegative, and the two margins of an axis
(`pos` and `size − inner_size − pos`) differ by `(size − inner_size) % 2`,
which is at most one pixel. -/
theorem C5_centering (kernel : Img → ℕ → ℕ → ℕ → RGBA) (source : Img)
    (size : ℤ) (pp crp : ℚ)
    (hsize : 0 < size) (h53 : size ≤ 2 ^ 53) (hpp0 : 0 ≤ pp) (hpp1 : pp < 100)
    (hinner : 1 ≤ inner_size size pp) :
    ∃ out, create_icon_with_padding kernel source size pp crp = .ok out ∧
      (∀ x y : ℕ,
        ((x : ℤ) < Int.fdiv (size - inner_size size pp) 2
          ∨ Int.fdiv (size - inner_size size pp) 2 + inner_size size pp ≤ (x : ℤ)
          ∨ (y : ℤ) < Int.fdiv (size - inner_size size pp) 2
          ∨ Int.fdiv (size - inner_size size pp) 2 + inner_size size pp ≤ (y : ℤ)) →
        out.px x y = ⟨0, 0, 0, 0⟩) ∧
      0 ≤ Int.fdiv (size - inner_size size pp) 2 ∧
      Int.fdiv (size - inner_size size pp) 2 + Int.fdiv (size - inner_size size pp) 2
        + (size - inner_size size pp) % 2 = size - inner_size size pp ∧
      (size - inner_size size pp) % 2 ≤ 1 := by
  have hle := inner_size_le size pp hsize h53 hpp0
  refine ⟨_, create_eq_ok kernel source size pp crp hinner hsize.le, ?_, ?_, ?_, ?_⟩
  · intro x y hxy
    have hw := masked_stage_width kernel source size pp crp
    have hh := masked_stage_height kernel source size pp crp
    rw [paste_px_outside _ _ _ x y (by rw [hw, hh]; omega)]
    rfl
  · exact fdiv_two_nonneg _ (by omega)
  · rw [Int.fdiv_eq_ediv _ (by omega)]
    omega
  · omega

/-- Witness for C5 at `size = 8`, `padding_percent = 25`
(`inner_size = 6`, `pos = 1`). -/
theorem C5_centering_witness :
    ∃ out, create_icon_with_padding kOpaque srcHalf 8 25 20 = .ok out ∧
      (∀ x y : ℕ,
        ((x : ℤ) < Int.fdiv (8 - inner_size 8 25) 2
          ∨ Int.fdiv (8 - inner_size 8 25) 2 + inner_size 8 25 ≤ (x : ℤ)
          ∨ (y : ℤ) < Int.fdiv (8 - inner_size 8 25) 2
          ∨ Int.fdiv (8 - inner_size 8 25) 2 + inner_size 8 25 ≤ (y : ℤ)) →
        out.px x y = ⟨0, 0, 0, 0⟩) ∧
      0 ≤ Int.fdiv (8 - inner_size 8 25) 2 ∧
      Int.fdiv (8 - inner_size 8 25) 2 + Int.fdiv (8 - inner_size 8 25) 2
        + (8 - inner_size 8 25) % 2 = 8 - inner_size 8 25 ∧
      (8 - inner_size 8 25) % 2 ≤ 1 :=
  C5_centering kOpaque srcHalf 8 25 20 (by norm_num) (by norm_num) (by norm_num)
    (by norm_num) (by rw [inner_size_8_25]; norm_num)

/-- C6: whenever `target_size ≤ 0` or the computed inner size is
non-positive (e.g. `padding_percent ≥ 100`), the renderer fails with an
invalid-argument error instead of clamping or returning a degenerate
image. -/
theorem C6_invalid_arguments (kernel : Img → ℕ → ℕ → ℕ → RGBA) (source : Img)
    (size : ℤ) (pp crp : ℚ)
    (h : size ≤ 0 ∨ inner_size size pp ≤ 0) :
    ∃ e, create_icon_with_padding kernel source size pp crp = .error e := by
  unfold create_icon_with_padding
  by_cases hi : inner_size size pp ≤ 0
  · rw [if_pos hi]
    exact ⟨_, rfl⟩
  · rw [if_neg hi]
    have hneg : size < 0 := by
      rcases h with hs | hs
      · rcases lt_or_eq_of_le hs with hlt | heq
        · exact hlt
        · subst heq
          exact absurd (inner_size_of_zero pp).le hi
      · exact absurd hs hi
    rw [if_pos hneg]
    exact ⟨_, rfl⟩

/-- Witness for C6 at `size = 10`, `padding_percent = 90`: in float
arithmetic the program's inner size is `int(0.9999999999999998) = 0`, so
the render fails at the resize with an invalid-argument error. -/
theorem C6_invalid_arguments_witness :
    ∃ e, create_icon_with_padding kOpaque srcHalf 10 90 0 = .error e :=
  C6_invalid_arguments kOpaque srcHalf 10 90 0 (Or.inr inner_size_10_90.le)

lemma muldiv255_max : muldiv255 255 255 = 255 := by decide

/-- C3 (amended): for `corner_radius_percent > 0` (with the rounded
rectangle's arcs not overlapping, `2·radius + 2 ≤ inner_size`), the four
extreme corner pixels of the centered inner region are fully transparent
in the output, and every pixel inside the rounded boundary keeps its
resized alpha `a` through the mask multiply — but its alpha in the output
is `muldiv255 a a`, not `a` (they agree exactly only for `a ∈ {0, 255}`),
because the final paste uses the image as its own mask. -/
theorem C3_rounded_corner_alpha (kernel : Img → ℕ → ℕ → ℕ → RGBA) (source : Img)
    (size : ℤ) (pp crp : ℚ)
    (hk : ∀ i m u v, (kernel i m u v).a ≤ 255)
    (hcrp : 0 < crp)
    (h1 : 1 ≤ inner_size size pp) (h2 : inner_size size pp ≤ size)
    (hrad : 2 * (corner_radius (inner_size size pp) crp).toNat + 2
      ≤ (inner_size size pp).toNat) :
    ∃ out, create_icon_with_padding kernel source size pp crp = .ok out ∧
      (∀ c d : ℕ,
        (c = 0 ∨ c = (inner_size size pp).toNat - 1) →
        (d = 0 ∨ d = (inner_size size pp).toNat - 1) →
        (out.px ((Int.fdiv (size - inner_size size pp) 2).toNat + c)
                ((Int.fdiv (size - inner_size size pp) 2).toNat + d)).a = 0) ∧
      (∀ x y : ℕ,
        x < (inner_size size pp).toNat → y < (inner_size size pp).toNat →
        inside_rounded_rect (inner_size size pp).toNat
          (corner_radius (inner_size size pp) crp).toNat x y →
        ((masked_stage kernel source size pp crp).px x y).a
          = ((resized_stage kernel source size pp).px x y).a ∧
        (out.px ((Int.fdiv (size - inner_size size pp) 2).toNat + x)
                ((Int.fdiv (size - inner_size size pp) 2).toNat + y)).a
          = muldiv255 ((resized_stage kernel source size pp).px x y).a
              ((resized_stage kernel source size pp).px x y).a) := by
  have hr1 : 1 ≤ (corner_radius (inner_size size pp) crp).toNat := by
    have := corner_radius_one_le (inner_size size pp) crp
    omega
  refine ⟨_, create_eq_ok kernel source size pp crp h1 (by omega), ?_, ?_⟩
  · intro c d hc hd
    have hcn : c < (inner_size size pp).toNat := by omega
    have hdn : d < (inner_size size pp).toNat := by omega
    rw [out_alpha_at kernel source size pp crp h1 h2 c d hcn hdn]
    have hm : ((masked_stage kernel source size pp crp).px c d).a = 0 := by
      unfold masked_stage
      rw [if_pos hcrp, apply_rounded_mask_alpha,
        maskPx_outside _ _ _ _ (not_inside_corner _ _ c d hr1 hrad hc hd),
        muldiv255_zero_right]
    rw [hm]
    exact muldiv255_zero_left 0
  · intro x y hx hy hin
    have hmask : ((masked_stage kernel source size pp crp).px x y).a
        = ((resized_stage kernel source size pp).px x y).a := by
      unfold masked_stage
      rw [if_pos hcrp, apply_rounded_mask_alpha, maskPx_inside _ _ _ _ hin]
      exact muldiv255_full _ (hk _ _ _ _)
    refine ⟨hmask, ?_⟩
    rw [out_alpha_at kernel source size pp crp h1 h2 x y hx hy, hmask]

/-- Witness for C3 (amended) at `size = 12`, `padding_percent = 0`,
`corner_radius_percent = 25` (`inner_size = 12`, `radius = 3`) with the
fully opaque constant kernel. -/
theorem C3_rounded_corner_alpha_witness :
    ∃ out, create_icon_with_padding kOpaque srcHalf 12 0 25 = .ok out ∧
      (∀ c d : ℕ,
        (c = 0 ∨ c = (inner_size 12 0).toNat - 1) →
        (d = 0 ∨ d = (inner_size 12 0).toNat - 1) →
        (out.px ((Int.fdiv (12 - inner_size 12 0) 2).toNat + c)
                ((Int.fdiv (12 - inner_size 12 0) 2).toNat + d)).a = 0) ∧
      (∀ x y : ℕ,
        x < (inner_size 12 0).toNat → y < (inner_size 12 0).toNat →
        inside_rounded_rect (inner_size 12 0).toNat
          (corner_radius (inner_size 12 0) 25).toNat x y →
        ((masked_stage kOpaque srcHalf 12 0 25).px x y).a
          = ((resized_stage kOpaque srcHalf 12 0).px x y).a ∧
        (out.px ((Int.fdiv (12 - inner_size 12 0) 2).toNat + x)
                ((Int.fdiv (12 - inner_size 12 0) 2).toNat + y)).a
          = muldiv255 ((resized_stage kOpaque srcHalf 12 0).px x y).a
              ((resized_stage kOpaque srcHalf 12 0).px x y).a) :=
  C3_rounded_corner_alpha kOpaque srcHalf 12 0 25 (fun _ _ _ _ => le_refl 255)
    (by norm_num)
    (by rw [inner_size_pad_zero 12 (by norm_num) (by norm_num)]; norm_num)
    (by rw [inner_size_pad_zero 12 (by norm_num) (by norm_num)])
    (by rw [inner_size_pad_zero 12 (by norm_num) (by norm_num),
          show corner_radius 12 25 = 3 by norm_num [corner_radius, pyInt]]
        decide)

/-- C3 counterexample: with a half-transparent (alpha 128) source, the
center pixel (4, 4) of the inner region lies strictly inside the rounded
boundary and still has alpha 128 after the mask multiply, yet its alpha in
the output image is 64, not 128 — the claim that inside pixels retain
their resized alpha in the output is false. -/
theorem C3_counterexample :
    inside_rounded_rect 8 2 4 4 ∧
    ((masked_stage kHalf srcHalf 8 0 25).px 4 4).a = 128 ∧
    (create_icon_with_padding kHalf srcHalf 8 0 25).map (fun o => (o.px 4 4).a)
      = .ok 64 ∧
    (64 : ℕ) ≠ 128 := by
  have hi : inner_size 8 0 = 8 := inner_size_pad_zero 8 (by norm_num) (by norm_num)
  have hn : (inner_size 8 0).toNat = 8 := by rw [hi]; rfl
  have hrr : (corner_radius (inner_size 8 0) 25).toNat = 2 := by
    rw [hi]
    have h : corner_radius 8 25 = 2 := by norm_num [corner_radius, pyInt]
    rw [h]
    rfl
  have h1 : 1 ≤ inner_size 8 0 := by omega
  have h2 : inner_size 8 0 ≤ 8 := by omega
  have hmask : ((masked_stage kHalf srcHalf 8 0 25).px 4 4).a = 128 := by
    unfold masked_stage
    rw [if_pos (by norm_num), apply_rounded_mask_alpha, hn, hrr,
      maskPx_inside _ _ _ _ (by decide)]
    rw [muldiv255_full _ (by decide)]
    rfl
  refine ⟨by decide, hmask, ?_, by decide⟩
  rw [create_eq_ok kHalf srcHalf 8 0 25 h1 (by norm_num)]
  simp only [Except.map]
  have hp : (Int.fdiv (8 - inner_size 8 0) 2).toNat = 0 := by
    rw [hi]
    rfl
  have ho := out_alpha_at kHalf srcHalf 8 0 25 h1 h2 4 4 (by omega) (by omega)
  rw [hp] at ho
  simp only [Nat.zero_add] at ho
  rw [ho, hmask]
  rfl

/-- C8 (amended): `corner_radius_percent = 0` disables corner rounding
entirely — the masked stage is exactly the resized stage, so the resized
image's alpha channel is untouched before compositing; but the final
self-masked paste maps every inner pixel's alpha `a` (corners included) to
`muldiv255 a a` in the output, which coincides with the resized alpha only
when it is 0 or 255. -/
theorem C8_rounding_disabled (kernel : Img → ℕ → ℕ → ℕ → RGBA) (source : Img)
    (size : ℤ) (pp : ℚ)
    (h1 : 1 ≤ inner_size size pp) (h2 : inner_size size pp ≤ size) :
    masked_stage kernel source size pp 0 = resized_stage kernel source size pp ∧
    ∃ out, create_icon_with_padding kernel source size pp 0 = .ok out ∧
      ∀ c d : ℕ, c < (inner_size size pp).toNat → d < (inner_size size pp).toNat →
        (out.px ((Int.fdiv (size - inner_size size pp) 2).toNat + c)
                ((Int.fdiv (size - inner_size size pp) 2).toNat + d)).a
          = muldiv255 ((resized_stage kernel source size pp).px c d).a
              ((resized_stage kernel source size pp).px c d).a ∧
        (((resized_stage kernel source size pp).px c d).a = 0 →
          (out.px ((Int.fdiv (size - inner_size size pp) 2).toNat + c)
                  ((Int.fdiv (size - inner_size size pp) 2).toNat + d)).a = 0) ∧
        (((resized_stage kernel source size pp).px c d).a = 255 →
          (out.px ((Int.fdiv (size - inner_size size pp) 2).toNat + c)
                  ((Int.fdiv (size - inner_size size pp) 2).toNat + d)).a = 255) := by
  have hmz : masked_stage kernel source size pp 0
      = resized_stage kernel source size pp := by
    unfold masked_stage
    rw [if_neg (by norm_num)]
  refine ⟨hmz, _, create_eq_ok kernel source size pp 0 h1 (by omega), ?_⟩
  intro c d hc hd
  have ho := out_alpha_at kernel source size pp 0 h1 h2 c d hc hd
  rw [hmz] at ho
  refine ⟨?_, ?_, ?_⟩
  · rw [hmz]
    exact ho
  · intro h0
    rw [hmz, ho, h0]
    exact muldiv255_zero_left 0
  · intro h255
    rw [hmz, ho, h255]
    exact muldiv255_max

/-- Witness for C8 (amended) at `size = 8`, `padding_percent = 25`. -/
theorem C8_rounding_disabled_witness :
    masked_stage kOpaque srcHalf 8 25 0 = resized_stage kOpaque srcHalf 8 25 ∧
    ∃ out, create_icon_with_padding kOpaque srcHalf 8 25 0 = .ok out ∧
      ∀ c d : ℕ, c < (inner_size 8 25).toNat → d < (inner_size 8 25).toNat →
        (out.px ((Int.fdiv (8 - inner_size 8 25) 2).toNat + c)
                ((Int.fdiv (8 - inner_size 8 25) 2).toNat + d)).a
          = muldiv255 ((resized_stage kOpaque srcHalf 8 25).px c d).a
              ((resized_stage kOpaque srcHalf 8 25).px c d).a ∧
        (((resized_stage kOpaque srcHalf 8 25).px c d).a = 0 →
          (out.px ((Int.fdiv (8 - inner_size 8 25) 2).toNat + c)
                  ((Int.fdiv (8 - inner_size 8 25) 2).toNat + d)).a = 0) ∧
        (((resized_stage kOpaque srcHalf 8 25).px c d).a = 255 →
          (out.px ((Int.fdiv (8 - inner_size 8 25) 2).toNat + c)
                  ((Int.fdiv (8 - inner_size 8 25) 2).toNat + d)).a = 255) :=
  C8_rounding_disabled kOpaque srcHalf 8 25
    (by rw [inner_size_8_25]; norm_num) (by rw [inner_size_8_25]; norm_num)

/-- C8 counterexample: with corner rounding disabled and a half-transparent
(alpha 128) source, the inner region's top-left corner pixel has alpha 64
in the output, not the resized image's alpha 128 — the claim that the
output corners retain the source alpha is false. -/
theorem C8_counterexample :
    ((resized_stage kHalf srcHalf 8 0).px 0 0).a = 128 ∧
    (create_icon_with_padding kHalf srcHalf 8 0 0).map (fun o => (o.px 0 0).a)
      = .ok 64 ∧
    (64 : ℕ) ≠ 128 := by
  have hi : inner_size 8 0 = 8 := inner_size_pad_zero 8 (by norm_num) (by norm_num)
  have h1 : 1 ≤ inner_size 8 0 := by omega
  have h2 : inner_size 8 0 ≤ 8 := by omega
  refine ⟨rfl, ?_, by decide⟩
  rw [create_eq_ok kHalf srcHalf 8 0 0 h1 (by norm_num)]
  simp only [Except.map]
  have hp : (Int.fdiv (8 - inner_size 8 0) 2).toNat = 0 := by
    rw [hi]
    rfl
  have ho := out_alpha_at kHalf srcHalf 8 0 0 h1 h2 0 0 (by omega) (by omega)
  rw [hp] at ho
  simp only [Nat.zero_add] at ho
  have hmz : masked_stage kHalf srcHalf 8 0 0 = resized_stage kHalf srcHalf 8 0 := by
    unfold masked_stage
    rw [if_neg (by norm_num)]
  rw [hmz] at ho ⊢
  rw [ho]
  rfl

/-- C10: because the final composite passes the resized image as its own
paste mask, every inner pixel's output alpha is `muldiv255 a a` (the
rounding form of `a·a/255`) of its pre-paste alpha `a`; alpha 255 and 0
are preserved exactly, and every strictly intermediate alpha comes out
strictly smaller. -/
theorem C10_self_mask_alpha (kernel : Img → ℕ → ℕ → ℕ → RGBA) (source : Img)
    (size : ℤ) (pp crp : ℚ)
    (h1 : 1 ≤ inner_size size pp) (h2 : inner_size size pp ≤ size)
    (x y : ℕ) (hx : x < (inner_size size pp).toNat)
    (hy : y < (inner_size size pp).toNat) :
    ∃ out, create_icon_with_padding kernel source size pp crp = .ok out ∧
      (out.px ((Int.fdiv (size - inner_size size pp) 2).toNat + x)
              ((Int.fdiv (size - inner_size size pp) 2).toNat + y)).a
        = muldiv255 ((masked_stage kernel source size pp crp).px x y).a
            ((masked_stage kernel source size pp crp).px x y).a ∧
      (((masked_stage kernel source size pp crp).px x y).a = 255 →
        (out.px ((Int.fdiv (size - inner_size size pp) 2).toNat + x)
                ((Int.fdiv (size - inner_size size pp) 2).toNat + y)).a = 255) ∧
      (((masked_stage kernel source size pp crp).px x y).a = 0 →
        (out.px ((Int.fdiv (size - inner_size size pp) 2).toNat + x)
                ((Int.fdiv (size - inner_size size pp) 2).toNat + y)).a = 0) ∧
      (0 < ((masked_stage kernel source size pp crp).px x y).a →
        ((masked_stage kernel source size pp crp).px x y).a < 255 →
        (out.px ((Int.fdiv (size - inner_size size pp) 2).toNat + x)
                ((Int.fdiv (size - inner_size size pp) 2).toNat + y)).a
          < ((masked_stage kernel source size pp crp).px x y).a) := by
  have ho := out_alpha_at kernel source size pp crp h1 h2 x y hx hy
  refine ⟨_, create_eq_ok kernel source size pp crp h1 (by omega), ho, ?_, ?_, ?_⟩
  · intro h
    rw [ho, h]
    exact muldiv255_max
  · intro h
    rw [ho, h]
    exact muldiv255_zero_left 0
  · intro ha hb
    rw [ho]
    exact muldiv255_self_lt _ ha hb

/-- Witness for C10 at `size = 8`, `padding_percent = 0`,
`corner_radius_percent = 0`, pixel `(0, 0)` with alpha 128. -/
theorem C10_self_mask_alpha_witness :
    ∃ out, create_icon_with_padding kHalf srcHalf 8 0 0 = .ok out ∧
      (out.px ((Int.fdiv (8 - inner_size 8 0) 2).toNat + 0)
              ((Int.fdiv (8 - inner_size 8 0) 2).toNat + 0)).a
        = muldiv255 ((masked_stage kHalf srcHalf 8 0 0).px 0 0).a
            ((masked_stage kHalf srcHalf 8 0 0).px 0 0).a ∧
      (((masked_stage kHalf srcHalf 8 0 0).px 0 0).a = 255 →
        (out.px ((Int.fdiv (8 - inner_size 8 0) 2).toNat + 0)
                ((Int.fdiv (8 - inner_size 8 0) 2).toNat + 0)).a = 255) ∧
      (((masked_stage kHalf srcHalf 8 0 0).px 0 0).a = 0 →
        (out.px ((Int.fdiv (8 - inner_size 8 0) 2).toNat + 0)
                ((Int.fdiv (8 - inner_size 8 0) 2).toNat + 0)).a = 0) ∧
      (0 < ((masked_stage kHalf srcHalf 8 0 0).px 0 0).a →
        ((masked_stage kHalf srcHalf 8 0 0).px 0 0).a < 255 →
        (out.px ((Int.fdiv (8 - inner_size 8 0) 2).toNat + 0)
                ((Int.fdiv (8 - inner_size 8 0) 2).toNat + 0)).a
          < ((masked_stage kHalf srcHalf 8 0 0).px 0 0).a) :=
  C10_self_mask_alpha kHalf srcHalf 8 0 0
    (by rw [inner_size_pad_zero 8 (by norm_num) (by norm_num)]; norm_num)
    (by rw [inner_size_pad_zero 8 (by norm_num) (by norm_num)])
    0 0
    (by rw [inner_size_pad_zero 8 (by norm_num) (by norm_num)]; decide)
    (by rw [inner_size_pad_zero 8 (by norm_num) (by norm_num)]; decide)

lemma convert_rgba_bitmapEq (i j : Img) (h : Img.bitmapEq i j) :
    Img.bitmapEq (convert_rgba i) (convert_rgba j) :=
  ⟨h.1, h.2.1, rfl, h.2.2.2⟩

lemma resized_stage_px_eq (kernel : Img → ℕ → ℕ → ℕ → RGBA)
    (hk : ∀ i j n, Img.bitmapEq i j → ∀ x y, x < n → y < n →
      kernel i n x y = kernel j n x y)
    (src1 src2 : Img) (hs : Img.bitmapEq src1 src2) (size : ℤ) (pp : ℚ)
    (x y : ℕ) (hx : x < (inner_size size pp).toNat)
    (hy : y < (inner_size size pp).toNat) :
    (resized_stage kernel src1 size pp).px x y
      = (resized_stage kernel src2 size pp).px x y :=
  hk _ _ _ (convert_rgba_bitmapEq _ _ hs) x y hx hy

lemma apply_rounded_mask_px_congr (i j : Img) (n r x y : ℕ)
    (h : i.px x y = j.px x y) :
    (apply_rounded_mask i n r).px x y = (apply_rounded_mask j n r).px x y := by
  simp only [apply_rounded_mask]
  rw [h]

lemma masked_stage_px_eq (kernel : Img → ℕ → ℕ → ℕ → RGBA)
    (hk : ∀ i j n, Img.bitmapEq i j → ∀ x y, x < n → y < n →
      kernel i n x y = kernel j n x y)
    (src1 src2 : Img) (hs : Img.bitmapEq src1 src2) (size : ℤ) (pp crp : ℚ)
    (x y : ℕ) (hx : x < (inner_size size pp).toNat)
    (hy : y < (inner_size size pp).toNat) :
    (masked_stage kernel src1 size pp crp).px x y
      = (masked_stage kernel src2 size pp crp).px x y := by
  unfold masked_stage
  by_cases hc : 0 < crp
  · rw [if_pos hc, if_pos hc]
    exact apply_rounded_mask_px_congr _ _ _ _ x y
      (resized_stage_px_eq kernel hk src1 src2 hs size pp x y hx hy)
  · rw [if_neg hc, if_neg hc]
    exact resized_stage_px_eq kernel hk src1 src2 hs size pp x y hx hy

/-- C9: the renderer is deterministic — the output is a function of the
render parameters, the (fixed, deterministic) resampling kernel, and the
in-bounds pixels of the source image alone: two runs on bitmap-equal
sources produce bitmap-equal outputs (or the identical error). -/
theorem C9_deterministic (kernel : Img → ℕ → ℕ → ℕ → RGBA)
    (hk : ∀ i j n, Img.bitmapEq i j → ∀ x y, x < n → y < n →
      kernel i n x y = kernel j n x y)
    (src1 src2 : Img) (size : ℤ) (pp crp : ℚ)
    (hs : Img.bitmapEq src1 src2) :
    exceptBitmapEq (create_icon_with_padding kernel src1 size pp crp)
      (create_icon_with_padding kernel src2 size pp crp) := by
  unfold create_icon_with_padding
  by_cases hi : inner_size size pp ≤ 0
  · rw [if_pos hi, if_pos hi]
    rfl
  · rw [if_neg hi, if_neg hi]
    by_cases hsz : size < 0
    · rw [if_pos hsz, if_pos hsz]
      rfl
    · rw [if_neg hsz, if_neg hsz]
      show Img.bitmapEq _ _
      refine ⟨rfl, rfl, rfl, ?_⟩
      intro x y hx hy
      simp only [paste_self_mask, masked_stage_width, masked_stage_height]
      split
      · rename_i h
        obtain ⟨ha, hb, hc2, hd⟩ := h
        have hu : ((x : ℤ) - Int.fdiv (size - inner_size size pp) 2).toNat
            < (inner_size size pp).toNat := by omega
        have hv : ((y : ℤ) - Int.fdiv (size - inner_size size pp) 2).toNat
            < (inner_size size pp).toNat := by omega
        rw [masked_stage_px_eq kernel hk src1 src2 hs size pp crp _ _ hu hv]
      · rfl

/-- Witness for C9: two identical runs on the same source. -/
theorem C9_deterministic_witness :
    exceptBitmapEq (create_icon_with_padding kOpaque srcHalf 8 25 20)
      (create_icon_with_padding kOpaque srcHalf 8 25 20) :=
  C9_deterministic kOpaque (fun _ _ _ _ _ _ _ _ => rfl) srcHalf srcHalf 8 25 20
    ⟨rfl, rfl, rfl, fun _ _ _ _ => rfl⟩

/-- C7 counterexample: the renderer function itself opens the source file
and saves the output PNG — its effect trace at the driver's first call
contains a file read and a file write, so the claim that it performs no
file I/O is false. -/
theorem C7_counterexample :
    Effect.readFile "doc/icon.png"
      ∈ create_icon_effects "doc/icon.png"
          "MonkeyNote/Assets.xcassets/AppIcon.appiconset/icon_16x16.png" 16 ∧
    Effect.writeFile "MonkeyNote/Assets.xcassets/AppIcon.appiconset/icon_16x16.png"
      ∈ create_icon_effects "doc/icon.png"
          "MonkeyNote/Assets.xcassets/AppIcon.appiconset/icon_16x16.png" 16 := by
  refine ⟨?_, ?_⟩ <;> decide

/-- C7 (amended): `create_icon_with_padding` itself reads exactly the
source path and writes exactly the output path (plus one console print),
in that order; the in-memory transformation between the read and the write
is the pure function `create_icon_with_padding` of this embedding, with no
further effects. -/
theorem C7_renderer_effects (inp outp : String) (size : ℤ) :
    (∀ p, Effect.readFile p ∈ create_icon_effects inp outp size → p = inp) ∧
    (∀ p, Effect.writeFile p ∈ create_icon_effects inp outp size → p = outp) ∧
    create_icon_effects inp outp size =
      [Effect.readFile inp, Effect.writeFile outp,
       Effect.printLine ("Created: " ++ outp ++ " (" ++ toString size ++ "x"
         ++ toString size ++ ")")] := by
  refine ⟨?_, ?_, rfl⟩
  · intro p hp
    simp [create_icon_effects] at hp
    exact hp
  · intro p hp
    simp [create_icon_effects] at hp
    exact hp

/-- Witness for C7 (amended) at the driver's first call. -/
theorem C7_renderer_effects_witness :
    (∀ p, Effect.readFile p ∈ create_icon_effects "doc/icon.png"
        "MonkeyNote/Assets.xcassets/AppIcon.appiconset/icon_16x16.png" 16 →
      p = "doc/icon.png") ∧
    (∀ p, Effect.writeFile p ∈ create_icon_effects "doc/icon.png"
        "MonkeyNote/Assets.xcassets/AppIcon.appiconset/icon_16x16.png" 16 →
      p = "MonkeyNote/Assets.xcassets/AppIcon.appiconset/icon_16x16.png") ∧
    create_icon_effects "doc/icon.png"
        "MonkeyNote/Assets.xcassets/AppIcon.appiconset/icon_16x16.png" 16 =
      [Effect.readFile "doc/icon.png",
       Effect.writeFile "MonkeyNote/Assets.xcassets/AppIcon.appiconset/icon_16x16.png",
       Effect.printLine ("Created: "
         ++ "MonkeyNote/Assets.xcassets/AppIcon.appiconset/icon_16x16.png"
         ++ " (" ++ toString (16 : ℤ) ++ "x" ++ toString (16 : ℤ) ++ ")")] :=
  C7_renderer_effects "doc/icon.png"
    "MonkeyNote/Assets.xcassets/AppIcon.appiconset/icon_16x16.png" 16
